import Mathlib

/-!
Shallow embedding of the upstream-patch-review dashboard client
(src/app.js, the indirect-key variant, and src/unnamed/part_000, the
direct-key variant).  JSON record values are modelled by `Value`;
JavaScript strings are modelled through their character lists (JS string
primitives are code-unit based, so the `List Char` view is the faithful
one).  Numeric JSON literals in the metadata store are integral, so
`Value.num` carries an `Int`; fractional numerals occur only inside
string values, which `jsParseFloat` handles in full.
-/

namespace UPR

/-- A JSON value stored in a Record field (string, number or boolean). -/
inductive Value where
  | str (s : String)
  | num (n : Int)
  | boolv (b : Bool)
deriving DecidableEq, Repr

/-- A Record: mapping from field name to value, in JSON insertion order. -/
abbrev Record := List (String × Value)

/-- The metadata store: mapping from RecordKey to Record, in insertion order. -/
abbrev Store := List (String × Record)

/-- JavaScript string conversion of a record value (template-literal and
`toString()` coercion); integers print in decimal exactly as in JS. -/
def jsToStr : Value → String
  | Value.str s => s
  | Value.num n => toString n
  | Value.boolv b => if b then "true" else "false"

/-- JavaScript truthiness of a possibly-absent record value: `undefined`
is falsy, an empty string and the number 0 and `false` are falsy. -/
def truthyV : Option Value → Bool
  | none => false
  | some (Value.str s) => !(s == "")
  | some (Value.num n) => !(n == 0)
  | some (Value.boolv b) => b

/-- Whitespace recognised by `parseInt`/`parseFloat` (the ASCII part of
ECMAScript StrWhiteSpace). -/
def jsWs (c : Char) : Bool :=
  c == ' ' || c == '\t' || c == '\n' || c == '\r' || c.val == 11 || c.val == 12

/-- Hexadecimal digit test. -/
def isHexDig (c : Char) : Bool :=
  c.isDigit || (97 ≤ c.val && c.val ≤ 102) || (65 ≤ c.val && c.val ≤ 70)

/-- Value of one hexadecimal digit. -/
def hexDigVal (c : Char) : Nat :=
  if c.isDigit then c.toNat - 48
  else if 97 ≤ c.val && c.val ≤ 102 then c.toNat - 87
  else c.toNat - 55

/-- Decimal value of a digit list (most significant first). -/
def decVal (ds : List Char) : Nat :=
  ds.foldl (fun a c => a * 10 + (c.toNat - 48)) 0

/-- Hexadecimal value of a digit list (most significant first). -/
def hexVal (ds : List Char) : Nat :=
  ds.foldl (fun a c => a * 16 + hexDigVal c) 0

/-- Sign prefix of a JS numeric literal: returns (negative?, rest). -/
def readSign : List Char → Bool × List Char
  | '-' :: t => (true, t)
  | '+' :: t => (false, t)
  | t => (false, t)

/-- ECMAScript `parseInt(s)` with the radix argument absent: skip
whitespace, optional sign, optional `0x`/`0X` hex prefix, then the
longest digit prefix; `none` models the NaN result. -/
def jsParseInt (s : String) : Option Int :=
  let cs := s.data.dropWhile jsWs
  let (neg, cs2) := readSign cs
  match cs2 with
  | '0' :: 'x' :: t =>
      let ds := t.takeWhile isHexDig
      if ds.isEmpty then none
      else some ((if neg then -1 else 1) * (hexVal ds : Int))
  | '0' :: 'X' :: t =>
      let ds := t.takeWhile isHexDig
      if ds.isEmpty then none
      else some ((if neg then -1 else 1) * (hexVal ds : Int))
  | _ =>
      let ds := cs2.takeWhile Char.isDigit
      if ds.isEmpty then none
      else some ((if neg then -1 else 1) * (decVal ds : Int))

/-- The `parseInt` coercion applied to a record value: JS first coerces the argument
to a string.  For an integral number that round-trips to the number
itself (the store holds no numbers outside the exact decimal range);
for a boolean, `"true"`/`"false"` parse to NaN. -/
def jsParseIntV : Value → Option Int
  | Value.str s => jsParseInt s
  | Value.num n => some n
  | Value.boolv _ => none

/-- The `parseInt` coercion applied to a field lookup result; `parseInt(undefined)` is NaN. -/
def jsParseIntOpt : Option Value → Option Int
  | none => none
  | some v => jsParseIntV v

/-- An exact decimal number `m · 10^e`, the value space of `parseFloat`
on decimal literals (finite doubles are exact decimals up to rounding;
the metadata timestamps are within the exactly-representable range). -/
structure Dec10 where
  m : Int
  e : Int
deriving DecidableEq, Repr

/-- The rational value of an exact decimal (used in specifications). -/
def Dec10.val (d : Dec10) : ℚ :=
  (d.m : ℚ) * (10 : ℚ) ^ d.e

/-- Exact subtraction of decimals over a common exponent. -/
def Dec10.sub (a b : Dec10) : Dec10 :=
  let emin := min a.e b.e
  { m := a.m * (10 : Int) ^ (a.e - emin).toNat - b.m * (10 : Int) ^ (b.e - emin).toNat
    e := emin }

/-- A JavaScript number as produced by `parseFloat` and the sort
comparator: NaN, a signed infinity, or a finite decimal value. -/
inductive JSNum where
  | nan
  | inf (neg : Bool)
  | fin (d : Dec10)
deriving DecidableEq, Repr

/-- JavaScript subtraction on `JSNum`. -/
def JSNum.sub : JSNum → JSNum → JSNum
  | JSNum.nan, _ => JSNum.nan
  | _, JSNum.nan => JSNum.nan
  | JSNum.inf a, JSNum.inf b => if a == b then JSNum.nan else JSNum.inf a
  | JSNum.inf a, JSNum.fin _ => JSNum.inf a
  | JSNum.fin _, JSNum.inf b => JSNum.inf (!b)
  | JSNum.fin a, JSNum.fin b => JSNum.fin (Dec10.sub a b)

/-- ECMAScript `parseFloat`: skip whitespace, optional sign, then the
longest prefix that is a decimal literal (`Infinity`, digits with
optional fraction, or a leading-dot fraction, with an optional exponent
whose `e` is consumed only when digits follow); NaN when no prefix
parses.  The parsed value `sign · (ip.fp) · 10^exp` is kept as the exact
decimal `sign · (ip·10^|fp| + fp) · 10^(exp-|fp|)`. -/
def jsParseFloat (s : String) : JSNum :=
  let cs := s.data.dropWhile jsWs
  let (neg, cs2) := readSign cs
  if "Infinity".data.isPrefixOf cs2 then JSNum.inf neg
  else
    let ip := cs2.takeWhile Char.isDigit
    let r1 := cs2.dropWhile Char.isDigit
    let fp := match r1 with
      | '.' :: t => t.takeWhile Char.isDigit
      | _ => []
    let r2 := match r1 with
      | '.' :: t => t.dropWhile Char.isDigit
      | _ => r1
    if ip.isEmpty && fp.isEmpty then JSNum.nan
    else
      let mant : Int := (decVal ip : Int) * (10 : Int) ^ fp.length + (decVal fp : Int)
      let expv : Int := match r2 with
        | e :: t =>
            if e == 'e' || e == 'E' then
              let (eneg, t2) := readSign t
              let eds := t2.takeWhile Char.isDigit
              if eds.isEmpty then 0
              else (if eneg then -1 else 1) * (decVal eds : Int)
            else 0
        | [] => 0
      JSNum.fin { m := (if neg then -1 else 1) * mant, e := expv - fp.length }

/-- The `parseFloat` coercion applied to a record value (string coercion first):
booleans stringify to `"true"`/`"false"`, which parse to NaN. -/
def jsParseFloatV : Value → JSNum
  | Value.str s => jsParseFloat s
  | Value.num n => JSNum.fin { m := n, e := 0 }
  | Value.boolv _ => JSNum.nan

/-- JS `s.startsWith(pre)` (code-unit prefix test). -/
def jsStartsWith (s pre : String) : Bool :=
  pre.data.isPrefixOf s.data

/-- JS `s.endsWith(suf)` (code-unit suffix test). -/
def jsEndsWith (s suf : String) : Bool :=
  suf.data.isSuffixOf s.data

/-- JS `s.substring(n)` / dropping the first `n` characters. -/
def jsDrop (s : String) (n : Nat) : String :=
  String.mk (s.data.drop n)

/-- Dropping the last `n` characters (suffix removal). -/
def jsDropRight (s : String) (n : Nat) : String :=
  String.mk (s.data.take (s.data.length - n))

/-- Substring search helper over character lists. -/
def subAux (pat : List Char) : List Char → Bool
  | [] => pat.isEmpty
  | c :: t => pat.isPrefixOf (c :: t) || subAux pat t

/-- Whether `pat` occurs as a contiguous substring of `hay` (JS `includes`). -/
def containsSub (hay pat : String) : Bool :=
  subAux pat.data hay.data

/-! ## Result extraction (`showHome` / `showTestDetail` key-scanning loops) -/

/-- A short extracted result, as collected in `showHome`:
`{ name, rc: isNaN(rc) ? -1 : rc, enforced }`. -/
structure ResultR where
  name : String
  rc : Int
  enforced : Bool
deriving DecidableEq, Repr

/-- The test whether the companion `enforced<Name>` value passes
`data[enforcedKey] === "True" || data[enforcedKey] === true`. -/
def strictEqTrue : Option Value → Bool
  | some (Value.str s) => s == "True"
  | some (Value.boolv b) => b
  | _ => false

/-- The parsed return code: `parseInt(data[key])` with NaN mapped to -1. -/
def rcOf (v : Option Value) : Int :=
  match jsParseIntOpt v with
  | some n => n
  | none => -1

/-- The `showHome` per-record scan: for every field name starting with
`result`, take the remainder as the test name and collect the return
code and the enforced flag. -/
def extractShort (data : Record) : List ResultR :=
  data.filterMap (fun kv =>
    if jsStartsWith kv.fst "result" then
      let name := jsDrop kv.fst 6
      some { name := name
             rc := rcOf (List.lookup kv.fst data)
             enforced := strictEqTrue (List.lookup ("enforced" ++ name) data) }
    else none)

/-- A fully extracted Outcome, as collected in `showTestDetail`. -/
structure Outcome where
  name : String
  rc : Int
  enforced : Bool
  runtime : String
  description : String
  logPath : String
deriving DecidableEq, Repr

/-- The JS `data[key] || default` idiom on a record value, stringified
where the renderer would stringify it. -/
def jsOrDefaultStr (v : Option Value) (dflt : String) : String :=
  match v with
  | some w => if truthyV (some w) then jsToStr w else dflt
  | none => dflt

/-- The fixed installation-path prefix stripped inside `showTestDetail`
(regex `^\/var\/www\/ci-lustre\/upstream-patch-review\/`). -/
def installPrefixStr : String := "/var/www/ci-lustre/upstream-patch-review/"

/-- The fixed RecordKey marker for home files. -/
def homeMarker : String := "_home.html"

/-- Model of `homePath.replace(/^\/var\/www\/ci-lustre\/upstream-patch-review\//, "")`:
strip the anchored installation prefix when present. -/
def webPathOf (p : String) : String :=
  if jsStartsWith p installPrefixStr then jsDrop p installPrefixStr.data.length else p

/-- Model of `webPath.replace(/_home\.html$/, "")`: remove the anchored suffix
when present. -/
def dropHomeSuffix (p : String) : String :=
  if jsEndsWith p homeMarker then jsDropRight p homeMarker.data.length else p

/-- Model of `name.replace(/ /g, "_").toLowerCase()`: spaces to underscores, then
lower-cased (ASCII case mapping; test names are ASCII). -/
def normalizeName (name : String) : String :=
  String.mk ((name.data.map (fun c => if c == ' ' then '_' else c)).map Char.toLower)

/-- Log path in the indirect-key variant (src/app.js `showTestDetail`):
prefix-stripped, suffix-removed key, underscore, normalized name, `.log`. -/
def logPathIndirect (homePath name : String) : String :=
  dropHomeSuffix (webPathOf homePath) ++ "_" ++ normalizeName name ++ ".log"

/-- Log path in the direct-key variant (src/unnamed/part_000
`showTestDetail`): the git-hash key itself is the prefix. -/
def logPathDirect (gitHash name : String) : String :=
  gitHash ++ "_" ++ normalizeName name ++ ".log"

/-- The `showTestDetail` per-record scan, parameterized by the
variant-specific log-path construction. -/
def extractDetail (mkLog : String → String) (data : Record) : List Outcome :=
  data.filterMap (fun kv =>
    if jsStartsWith kv.fst "result" then
      let name := jsDrop kv.fst 6
      some { name := name
             rc := rcOf (List.lookup kv.fst data)
             enforced := strictEqTrue (List.lookup ("enforced" ++ name) data)
             runtime := jsOrDefaultStr (List.lookup ("runtime" ++ name) data) "N/A"
             description := jsOrDefaultStr (List.lookup ("description" ++ name) data)
               ("Job: " ++ name)
             logPath := mkLog name }
    else none)

/-! ## Status aggregation (`summarize`) -/

/-- A PASS/FAIL/N-A summary with its colour class. -/
structure Summary where
  text : String
  color : String
deriving DecidableEq, Repr

/-- The `summarize` closure from `showHome`: N/A on the empty list, PASS when every
return code is 0, FAIL otherwise. -/
def summarize (results : List ResultR) : Summary :=
  if results.length == 0 then { text := "N/A", color := "gray" }
  else if results.all (fun r => r.rc == 0) then { text := "PASS", color := "green" }
  else { text := "FAIL", color := "red" }

/-! ## Home listing (`showHome` eligibility filter and sort) -/

/-- One entry of the `homeFiles` / `testRuns` array. -/
structure HomeItem where
  path : String
  data : Record
deriving DecidableEq, Repr

/-- Model of `Object.keys(metadata)` in insertion order. -/
def storeKeys (store : Store) : List String :=
  store.map Prod.fst

/-- Model of `metadata[path]` for a key known to be in the store. -/
def recordAt (store : Store) (p : String) : Record :=
  (List.lookup p store).getD []

/-- The four-required-fields truthiness filter applied in both variants. -/
def requiredFieldsOk (data : Record) : Bool :=
  truthyV (List.lookup "patch_revision" data) &&
  truthyV (List.lookup "change_id" data) &&
  truthyV (List.lookup "subject" data) &&
  truthyV (List.lookup "time_stamp" data)

/-- The `showHome` candidate rows in the indirect-key variant: keys ending in
`_home.html`, paired with their records, with incomplete records dropped. -/
def homeFiles (store : Store) : List HomeItem :=
  (((storeKeys store).filter (fun p => jsEndsWith p homeMarker)).map
      (fun p => { path := p, data := recordAt store p })).filter
    (fun it => requiredFieldsOk it.data)

/-- The `showHome` candidate rows in the direct-key variant: every key. -/
def testRuns (store : Store) : List HomeItem :=
  ((storeKeys store).map (fun p => { path := p, data := recordAt store p })).filter
    (fun it => requiredFieldsOk it.data)

/-- Model of `data.time_stamp || 0`, the comparator operand before `parseFloat`. -/
def tsOr0 (data : Record) : Value :=
  match List.lookup "time_stamp" data with
  | some v => if truthyV (some v) then v else Value.num 0
  | none => Value.num 0

/-- The sort comparator of `showHome`:
`parseFloat(b.data.time_stamp || 0) - parseFloat(a.data.time_stamp || 0)`. -/
def homeCmp (a b : HomeItem) : JSNum :=
  JSNum.sub (jsParseFloatV (tsOr0 b.data)) (jsParseFloatV (tsOr0 a.data))

/-- ECMAScript SortCompare coercion of a comparator result: NaN is
coerced to +0; the test is whether the result is at most zero (keep the
pair order). -/
def jsLe0 : JSNum → Bool
  | JSNum.nan => true
  | JSNum.inf neg => neg
  | JSNum.fin d => decide (d.m ≤ 0)

/-- Stable insertion of one element under a JS comparator. -/
def insertJS (c : α → α → JSNum) (x : α) : List α → List α
  | [] => [x]
  | y :: ys => if jsLe0 (c x y) then x :: y :: ys else y :: insertJS c x ys

/-- Model of `Array.prototype.sort` modelled as a stable comparison sort (ES2019
requires stability) with the SortCompare NaN-to-zero coercion. -/
def sortJS (c : α → α → JSNum) : List α → List α
  | [] => []
  | x :: xs => insertJS c x (sortJS c xs)

/-- The sorted home listing of the indirect-key variant. -/
def sortedHomeFiles (store : Store) : List HomeItem :=
  sortJS homeCmp (homeFiles store)

/-- The sorted home listing of the direct-key variant. -/
def sortedTestRuns (store : Store) : List HomeItem :=
  sortJS homeCmp (testRuns store)

/-! ## Router and views -/

/-- The view the router enters for a fragment. -/
inductive View where
  | homeView
  | statusView
  | detail (key : String)
  | error (msg : String)
deriving DecidableEq, Repr

/-- The error message emitted when a change-id resolution fails. -/
def cidNotFoundMsg (cid : String) : String :=
  "Review with change ID " ++ cid ++ " not found"

/-- The error message emitted when a git-hash lookup fails. -/
def hashNotFoundMsg (h : String) : String :=
  "Review with git hash " ++ h ++ " not found"

/-- Model of `data.change_id === changeId`: strict equality of a record value
against a string. -/
def strictEqStr (v : Option Value) (t : String) : Bool :=
  match v with
  | some (Value.str s) => s == t
  | _ => false

/-- Model of `showReviewByChangeId` (src/app.js): filter the keys ending in
`_home.html`, find the first whose record has `change_id` strictly equal
to the requested id, and enter the detail view on it; otherwise error. -/
def showReviewByChangeId (store : Store) (cid : String) : View :=
  match ((storeKeys store).filter (fun p => jsEndsWith p homeMarker)).find?
      (fun p => strictEqStr (List.lookup "change_id" (recordAt store p)) cid) with
  | some p => View.detail p
  | none => View.error (cidNotFoundMsg cid)

/-- Model of `showReviewByGitHash` (src/unnamed/part_000): direct key lookup. -/
def showReviewByGitHash (store : Store) (h : String) : View :=
  if (List.lookup h store).isSome then View.detail h
  else View.error (hashNotFoundMsg h)

/-- Model of `handleRoute` in the indirect-key variant: `#review/` prefix routes
to change-id resolution, `#status` to the status view, anything else to
the home view. -/
def handleRoute (store : Store) (hash : String) : View :=
  if jsStartsWith hash "#review/" then
    showReviewByChangeId store (jsDrop hash "#review/".data.length)
  else if hash == "#status" then View.statusView
  else View.homeView

/-- Model of `handleRoute` in the direct-key variant. -/
def handleRouteDirect (store : Store) (hash : String) : View :=
  if jsStartsWith hash "#review/" then
    showReviewByGitHash store (jsDrop hash "#review/".data.length)
  else if hash == "#status" then View.statusView
  else View.homeView

/-! ## HTML escaping and the renderers -/

/-- One character of `escapeHtml` output.  The source sets
`div.textContent` and reads back `div.innerHTML`; HTML text-node
serialization replaces `&`, `<`, `>` (and U+00A0) by entities and leaves
every other character, including quotes, unchanged. -/
def escChar (c : Char) : String :=
  if c == '&' then "&amp;"
  else if c == '<' then "&lt;"
  else if c == '>' then "&gt;"
  else if c.val == 160 then "&nbsp;"
  else String.mk [c]

/-- Character-list worker for `escapeHtml`. -/
def escList : List Char → String
  | [] => ""
  | c :: cs => escChar c ++ escList cs

/-- Model of `app.escapeHtml` on a string argument. -/
def escapeHtml (s : String) : String :=
  escList s.data

/-- Model of `app.escapeHtml` on a record value: `null`/`undefined` give `""`,
anything else is `toString()`-coerced first. -/
def escapeHtmlOpt : Option Value → String
  | none => ""
  | some v => escapeHtml (jsToStr v)

/-- A raw template-literal interpolation `${v}` of a field lookup
(no escaping; `undefined` prints as the string `undefined`). -/
def interpRaw : Option Value → String
  | none => "undefined"
  | some v => jsToStr v

/-- Modelled from the spec: the home row timestamp column uses the host
`Date`/`toLocaleString` fixed-zone formatting, an external presentation
collaborator not part of the source under verification; it is modelled
as a decimal rendering of the parsed epoch value, with unparseable
values as the host `Invalid Date` text. -/
def localeTimeString : JSNum → String
  | JSNum.fin d => toString d.m ++ (if d.e == 0 then "" else "e" ++ toString d.e)
  | _ => "Invalid Date"

/-- One `<tr>` of the `showHome` table in the indirect-key variant
(src/app.js lines 212-223); inter-tag indentation whitespace is elided.
`patch_revision` and `change_id` are interpolated raw inside the two
external `href` attributes, while the other interpolations pass through
`escapeHtml`. -/
def homeRowHtml (it : HomeItem) : String :=
  let d := it.data
  let enforcedSummary := summarize ((extractShort d).filter (fun r => r.enforced))
  let optionalSummary := summarize ((extractShort d).filter (fun r => !r.enforced))
  "<tr><td><a href=\"#review/" ++ escapeHtmlOpt (List.lookup "change_id" d) ++
    "\">Link</a></td>" ++
  "<td>" ++ escapeHtmlOpt (List.lookup "subject" d) ++ "</td>" ++
  "<td><a href=\"https://review.whamcloud.com/plugins/gitiles/fs/lustre-release/+/" ++
    interpRaw (List.lookup "patch_revision" d) ++ "\" target=\"_blank\">" ++
    escapeHtmlOpt (List.lookup "patch_revision" d) ++ "</a></td>" ++
  "<td><a href=\"https://review.whamcloud.com/c/fs/lustre-release/+/" ++
    interpRaw (List.lookup "change_id" d) ++ "\" target=\"_blank\">" ++
    escapeHtmlOpt (List.lookup "change_id" d) ++ "</a></td>" ++
  "<td>" ++ localeTimeString (jsParseFloatV ((List.lookup "time_stamp" d).getD
    (Value.str ""))) ++ "</td>" ++
  "<td>" ++ escapeHtml (jsOrDefaultStr (List.lookup "total_runtime" d) "N/A") ++
    "</td>" ++
  "<td style=\"color:" ++ enforcedSummary.color ++ ";\">" ++ enforcedSummary.text ++
    "</td>" ++
  "<td style=\"color:" ++ optionalSummary.color ++ ";\">" ++ optionalSummary.text ++
    "</td></tr>"

/-- The status cell text of a detail row: `rc === 0 ? "PASS" : "FAIL"`. -/
def statusText (rc : Int) : String :=
  if rc == 0 then "PASS" else "FAIL"

/-- The status colour of a detail row. -/
def statusColor (rc : Int) : String :=
  if rc == 0 then "green" else "red"

/-- One `<tr>` of `renderResultsTable` (identical in both variants);
inter-tag indentation whitespace is elided.  All five record-sourced
strings pass through `escapeHtml`. -/
def resultRowHtml (r : Outcome) : String :=
  let description := if r.description == "" then "Job: " ++ r.name else r.description
  let runtime := if r.runtime == "" then "N/A" else r.runtime
  "<tr><td><a href=\"#\" onclick=\"app.showLog(\x27" ++ escapeHtml r.logPath ++
    "\x27, \x27" ++ escapeHtml r.name ++ "\x27); return false;\">" ++
    escapeHtml r.name ++ "</a></td>" ++
  "<td>" ++ escapeHtml description ++ "</td>" ++
  "<td>" ++ (if r.enforced then "Enforced" else "Optional") ++ "</td>" ++
  "<td>" ++ escapeHtml runtime ++ "</td>" ++
  "<td style=\"color:" ++ statusColor r.rc ++ ";\">" ++ statusText r.rc ++
    "</td></tr>"

/-! ## Filter controller -/

/-- One already-rendered detail row: the stored status cell text and the
`filtered` class marker. -/
structure DetailRow where
  status : String
  filtered : Bool
deriving DecidableEq, Repr

/-- The `updateFilter` per-row step: remove the `filtered` marker when
the selection is `All` or matches the stored status, add it otherwise. -/
def applyRowFilter (fv : String) (r : DetailRow) : DetailRow :=
  if fv == "All" || r.status == fv then { r with filtered := false }
  else { r with filtered := true }

/-- Model of `updateFilter` over the rendered detail rows. -/
def updateFilter (fv : String) (rows : List DetailRow) : List DetailRow :=
  rows.map (applyRowFilter fv)

/-- One already-rendered home row: the stored enforced and optional
summary cell texts and the `filtered` marker. -/
structure HomeRow where
  enforcedStatus : String
  optionalStatus : String
  filtered : Bool
deriving DecidableEq, Repr

/-- The `updateHomeFilter` per-row step: the row stays visible only when
both the enforced axis and the optional axis match or are `All`. -/
def applyHomeRowFilter (ef ov : String) (r : HomeRow) : HomeRow :=
  let enforcedMatch := ef == "All" || r.enforcedStatus == ef
  let optionalMatch := ov == "All" || r.optionalStatus == ov
  if enforcedMatch && optionalMatch then { r with filtered := false }
  else { r with filtered := true }

/-- Model of `updateHomeFilter` over the rendered home rows. -/
def updateHomeFilter (ef ov : String) (rows : List HomeRow) : List HomeRow :=
  rows.map (applyHomeRowFilter ef ov)

/-! ## Derived predicates and concrete fixtures used by the theorems -/

/-- The predicate that makes a key the indirect-mode resolution target:
the `_home.html` suffix together with the strict change-id match. -/
def cidMatch (store : Store) (cid : String) (p : String) : Bool :=
  jsEndsWith p homeMarker &&
    strictEqStr (List.lookup "change_id" (recordAt store p)) cid

/-- Whether a `JSNum` is finite. -/
def isFin : JSNum → Bool
  | JSNum.fin _ => true
  | _ => false

/-- The comparator sort key of a home item. -/
def finKey (it : HomeItem) : JSNum :=
  jsParseFloatV (tsOr0 it.data)

/-- The rational sort-key value with NaN and infinities collapsed to 0,
used to state the order of the home listing. -/
def keyVal (it : HomeItem) : ℚ :=
  match finKey it with
  | JSNum.fin d => d.val
  | _ => 0

/-- Fixture: complete record with an unparseable `time_stamp`. -/
def c5recA : Record :=
  [("patch_revision", Value.str "pa"), ("change_id", Value.str "1"),
   ("subject", Value.str "A"), ("time_stamp", Value.str "garbage")]

/-- Fixture: complete record with `time_stamp` 100. -/
def c5recB : Record :=
  [("patch_revision", Value.str "pb"), ("change_id", Value.str "2"),
   ("subject", Value.str "B"), ("time_stamp", Value.str "100")]

/-- Fixture: complete record with `time_stamp` 200. -/
def c5recC : Record :=
  [("patch_revision", Value.str "pc"), ("change_id", Value.str "3"),
   ("subject", Value.str "C"), ("time_stamp", Value.str "200")]

/-- Fixture store for the sort-order counterexample: the unparseable
record inserted first, two parseable newer records after it. -/
def c5store : Store :=
  [("a_home.html", c5recA), ("b_home.html", c5recB), ("c_home.html", c5recC)]

/-- Fixture store with all timestamps parseable, out of order. -/
def c5goodStore : Store :=
  [("b_home.html", c5recB), ("c_home.html", c5recC)]

/-- Fixture: record whose `patch_revision` carries markup and a quote. -/
def c2rec : Record :=
  [("patch_revision", Value.str "x\x22<img src=a>"), ("change_id", Value.str "7"),
   ("subject", Value.str "S"), ("time_stamp", Value.str "1700000000")]

/-- Fixture: record whose `subject` carries a script tag. -/
def c2scriptRec : Record :=
  [("patch_revision", Value.str "p"), ("change_id", Value.str "9"),
   ("subject", Value.str "<script>alert(1)</script>"),
   ("time_stamp", Value.str "1700000000")]

/-- Fixture home item for the script-subject round trip. -/
def c2scriptItem : HomeItem :=
  { path := "k_home.html", data := c2scriptRec }

/-- Fixture record for the `"abort"` return-code boundary. -/
def c3rec : Record :=
  [("resultBuild", Value.str "abort"), ("enforcedBuild", Value.str "True")]

/-- Fixture store for the indirect-key resolution scenario of the spec. -/
def c6store : Store :=
  [("/var/www/ci-lustre/upstream-patch-review/200_home.html",
    [("patch_revision", Value.str "abc"), ("change_id", Value.str "200"),
     ("subject", Value.str "S"), ("time_stamp", Value.str "1700000000")])]

/-! ## Helper lemmas -/

theorem strData_append (s t : String) : (s ++ t).data = s.data ++ t.data := rfl

theorem strMk_data (s : String) : String.mk s.data = s := rfl

theorem isPrefixOf_self_append (p r : List Char) : p.isPrefixOf (p ++ r) = true := by
  induction p with
  | nil => simp [List.isPrefixOf]
  | cons c t ih => simp [List.isPrefixOf, ih]

theorem subAux_of_mid (m : List Char) :
    ∀ (l₁ l₂ : List Char), subAux m (l₁ ++ (m ++ l₂)) = true := by
  intro l₁
  induction l₁ with
  | nil =>
      intro l₂
      rw [List.nil_append]
      cases hm : m ++ l₂ with
      | nil =>
          have hm0 : m = [] := by
            cases m with
            | nil => rfl
            | cons a b => simp at hm
          rw [hm0]
          rfl
      | cons c t =>
          have hpre : m.isPrefixOf (c :: t) = true := by
            rw [← hm]; exact isPrefixOf_self_append m l₂
          simp [subAux, hpre]
  | cons c t ih =>
      intro l₂
      simp [subAux, ih l₂]

theorem containsSub_of_parts (pre mid post : String) :
    containsSub (pre ++ mid ++ post) mid = true := by
  show subAux mid.data (pre ++ mid ++ post).data = true
  rw [strData_append, strData_append]
  rw [List.append_assoc]
  exact subAux_of_mid mid.data pre.data post.data

theorem find?_filter_fusion (p q : α → Bool) (l : List α) :
    (l.filter p).find? q = l.find? (fun x => p x && q x) := by
  induction l with
  | nil => rfl
  | cons a as ih =>
      by_cases hp : p a
      · by_cases hq : q a
        · simp [List.filter_cons, hp, List.find?, hq]
        · simp only [List.filter_cons, if_pos hp]
          rw [List.find?_cons_of_neg _ (by simp [hq]),
            List.find?_cons_of_neg _ (by simp [hp, hq]), ih]
      · simp only [List.filter_cons, if_neg hp]
        rw [List.find?_cons_of_neg _ (by simp [hp]), ih]

theorem find?_eq_some_split (f : α → Bool) (l : List α) (x : α) :
    l.find? f = some x ↔
      ∃ l₁ l₂, l = l₁ ++ x :: l₂ ∧ f x = true ∧ ∀ y ∈ l₁, f y = false := by
  induction l with
  | nil => simp [List.find?]
  | cons a as ih =>
      by_cases hf : f a
      · rw [List.find?_cons_of_pos _ hf]
        constructor
        · intro h
          have hax : a = x := by injection h
          exact ⟨[], as, by simp [hax], by rw [← hax]; exact hf, by intro y hy; simp at hy⟩
        · rintro ⟨l₁, l₂, heq, hx, hall⟩
          cases l₁ with
          | nil =>
              have : a = x := by
                have := heq
                simp at this
                exact this.1
              rw [this]
          | cons b bs =>
              have hb : b = a := by
                have := heq
                simp at this
                exact this.1.symm
              have : f b = false := hall b (by simp)
              rw [hb, hf] at this
              exact absurd this (by simp)
      · rw [List.find?_cons_of_neg _ hf, ih]
        constructor
        · rintro ⟨l₁, l₂, heq, hx, hall⟩
          refine ⟨a :: l₁, l₂, by rw [heq, List.cons_append], hx, ?_⟩
          intro y hy
          rcases List.mem_cons.mp hy with h1 | h2
          · rw [h1]; exact Bool.eq_false_iff.mpr hf
          · exact hall y h2
        · rintro ⟨l₁, l₂, heq, hx, hall⟩
          cases l₁ with
          | nil =>
              have hax : a = x := by
                have := heq; simp at this; exact this.1
              rw [hax] at hf
              exact absurd hx hf
          | cons b bs =>
              have hb : a = b ∧ as = bs ++ x :: l₂ := by
                have := heq; simp at this; exact this
              exact ⟨bs, l₂, hb.2, hx, fun y hy => hall y (by simp [hy])⟩

theorem mem_insertJS {c : α → α → JSNum} {x a : α} :
    ∀ {l : List α}, a ∈ insertJS c x l ↔ a = x ∨ a ∈ l := by
  intro l
  induction l with
  | nil => simp [insertJS]
  | cons y ys ih =>
      by_cases h : jsLe0 (c x y)
      · simp [insertJS, h]
      · simp only [insertJS, if_neg h, List.mem_cons, ih]
        tauto

theorem perm_insertJS (c : α → α → JSNum) (x : α) :
    ∀ (l : List α), List.Perm (insertJS c x l) (x :: l) := by
  intro l
  induction l with
  | nil => simp [insertJS]
  | cons y ys ih =>
      by_cases h : jsLe0 (c x y)
      · simp [insertJS, h]
      · simp only [insertJS, if_neg h]
        exact (List.Perm.cons y ih).trans (List.Perm.swap x y ys)

theorem perm_sortJS (c : α → α → JSNum) :
    ∀ (l : List α), List.Perm (sortJS c l) l := by
  intro l
  induction l with
  | nil => simp [sortJS]
  | cons x xs ih =>
      exact (perm_insertJS c x (sortJS c xs)).trans (List.Perm.cons x ih)

theorem mem_sortJS {c : α → α → JSNum} {a : α} {l : List α} :
    a ∈ sortJS c l ↔ a ∈ l :=
  (perm_sortJS c l).mem_iff

/-! ## Claim theorems -/

/-- C1: `summarize` returns N/A iff the outcome list is empty, PASS iff it
is non-empty with every return code 0, and FAIL otherwise. -/
theorem c1_summarize_classification (rs : List ResultR) :
    ((summarize rs).text = "N/A" ↔ rs = [])
    ∧ ((summarize rs).text = "PASS" ↔ rs ≠ [] ∧ ∀ r ∈ rs, r.rc = 0)
    ∧ ((summarize rs).text = "FAIL" ↔ rs ≠ [] ∧ ∃ r ∈ rs, r.rc ≠ 0) := by
  cases rs with
  | nil =>
      refine ⟨by simp [summarize], by simp [summarize], by simp [summarize]⟩
  | cons x xs =>
      by_cases h : (x :: xs).all (fun r => r.rc == 0)
      · have hall : ∀ r ∈ x :: xs, r.rc = 0 := fun r hr =>
          beq_iff_eq.mp (List.all_eq_true.mp h r hr)
        refine ⟨?_, ?_, ?_⟩
        · simp [summarize, h]
        · simp only [summarize, List.length_cons, h]
          constructor
          · intro _
            exact ⟨by simp, hall⟩
          · intro _
            simp
        · simp only [summarize, List.length_cons, h]
          constructor
          · intro hpf
            exact absurd hpf (by simp)
          · rintro ⟨-, r, hr, hne⟩
            exact absurd (hall r hr) hne
      · have hex : ∃ r ∈ x :: xs, r.rc ≠ 0 := by
          by_contra hc
          push_neg at hc
          exact h (List.all_eq_true.mpr (fun r hr => beq_iff_eq.mpr (hc r hr)))
        refine ⟨?_, ?_, ?_⟩
        · simp [summarize, h]
        · simp only [summarize, List.length_cons, h]
          constructor
          · intro hpf
            exact absurd hpf (by simp)
          · rintro ⟨-, hall⟩
            exact absurd (List.all_eq_true.mpr (fun r hr => beq_iff_eq.mpr (hall r hr))) h
        · simp only [summarize, List.length_cons, h]
          constructor
          · intro _
            exact ⟨by simp, hex⟩
          · intro _
            simp

/-- C1 witness: a singleton pass list summarizes as PASS. -/
theorem c1_witness :
    (summarize [{ name := "Build", rc := 0, enforced := true }]).text = "PASS" :=
  (c1_summarize_classification [{ name := "Build", rc := 0, enforced := true }]).2.1.mpr
    ⟨by simp, by intro r hr; simp at hr; rw [hr]⟩

/-- C10: any fragment that does not start with `#review/` and is not
exactly `#status` routes to the home view in both variants, and never to
an error view. -/
theorem c10_router_default_home (store : Store) (hash : String)
    (h1 : jsStartsWith hash "#review/" = false) (h2 : hash ≠ "#status") :
    handleRoute store hash = View.homeView
    ∧ handleRouteDirect store hash = View.homeView
    ∧ (∀ m, handleRoute store hash ≠ View.error m)
    ∧ (∀ m, handleRouteDirect store hash ≠ View.error m) := by
  have hb : (hash == "#status") = false := beq_eq_false_iff_ne.mpr h2
  refine ⟨?_, ?_, ?_, ?_⟩ <;>
    simp [handleRoute, handleRouteDirect, h1, hb]

/-- C10 witness: the unrecognized fragment `#garbage` shows Home. -/
theorem c10_witness :
    handleRoute [] "#garbage" = View.homeView
    ∧ handleRouteDirect [] "#garbage" = View.homeView :=
  ⟨(c10_router_default_home [] "#garbage" (by decide) (by decide)).1,
   (c10_router_default_home [] "#garbage" (by decide) (by decide)).2.1⟩

/-- C7: when resolution fails in either mode, the router enters an error
view whose message contains the requested identifier, and no detail view
is entered. -/
theorem c7_lookup_failure (store : Store) (cid h : String)
    (h1 : ∀ p ∈ storeKeys store, cidMatch store cid p = false)
    (h2 : List.lookup h store = none) :
    (showReviewByChangeId store cid = View.error (cidNotFoundMsg cid)
      ∧ containsSub (cidNotFoundMsg cid) cid = true
      ∧ ∀ k, showReviewByChangeId store cid ≠ View.detail k)
    ∧ (showReviewByGitHash store h = View.error (hashNotFoundMsg h)
      ∧ containsSub (hashNotFoundMsg h) h = true
      ∧ ∀ k, showReviewByGitHash store h ≠ View.detail k) := by
  have hfind : ((storeKeys store).filter (fun p => jsEndsWith p homeMarker)).find?
      (fun p => strictEqStr (List.lookup "change_id" (recordAt store p)) cid) = none := by
    rw [find?_filter_fusion]
    exact List.find?_eq_none.mpr (fun p hp => by
      have := h1 p hp
      simp [cidMatch] at this
      by_cases hsuf : jsEndsWith p homeMarker
      · simp [hsuf, this hsuf]
      · simp [hsuf])
  have hcv : showReviewByChangeId store cid = View.error (cidNotFoundMsg cid) := by
    unfold showReviewByChangeId
    rw [hfind]
  have hhv : showReviewByGitHash store h = View.error (hashNotFoundMsg h) := by
    unfold showReviewByGitHash
    rw [h2]
    rfl
  refine ⟨⟨hcv, ?_, ?_⟩, ⟨hhv, ?_, ?_⟩⟩
  · exact containsSub_of_parts "Review with change ID " cid " not found"
  · intro k hk
    rw [hcv] at hk
    exact View.noConfusion hk
  · exact containsSub_of_parts "Review with git hash " h " not found"
  · intro k hk
    rw [hhv] at hk
    exact View.noConfusion hk

/-- C7 witness: the fragment identifier `doesnotexist` fails resolution
against a store with one unrelated record, the error message carries the
identifier literally. -/
theorem c7_witness :
    showReviewByChangeId c6store "doesnotexist"
        = View.error (cidNotFoundMsg "doesnotexist")
    ∧ containsSub (cidNotFoundMsg "doesnotexist") "doesnotexist" = true :=
  ⟨(c7_lookup_failure c6store "doesnotexist" "doesnotexist"
      (by decide) (by decide)).1.1,
   (c7_lookup_failure c6store "doesnotexist" "doesnotexist"
      (by decide) (by decide)).1.2.1⟩

/-- C6: in indirect-key mode the detail view is entered on a key exactly
when that key ends in `_home.html`, its record matches the change id,
and every key listed before it in the store fails one of those two
tests. -/
theorem c6_indirect_first_match (store : Store) (cid p : String) :
    showReviewByChangeId store cid = View.detail p ↔
      ∃ l₁ l₂, storeKeys store = l₁ ++ p :: l₂ ∧ cidMatch store cid p = true ∧
        ∀ q ∈ l₁, cidMatch store cid q = false := by
  have hfuse : ((storeKeys store).filter (fun x => jsEndsWith x homeMarker)).find?
      (fun x => strictEqStr (List.lookup "change_id" (recordAt store x)) cid)
      = (storeKeys store).find? (cidMatch store cid) := by
    rw [find?_filter_fusion]
    rfl
  unfold showReviewByChangeId
  rw [hfuse]
  cases hf : (storeKeys store).find? (cidMatch store cid) with
  | some r =>
      constructor
      · intro hd
        have hrp : r = p := by injection hd
        rw [hrp] at hf
        exact (find?_eq_some_split (cidMatch store cid) (storeKeys store) p).mp hf
      · intro hsplit
        have : (storeKeys store).find? (cidMatch store cid) = some p :=
          (find?_eq_some_split (cidMatch store cid) (storeKeys store) p).mpr hsplit
        rw [hf] at this
        have hrp : r = p := by injection this
        rw [hrp]
  | none =>
      constructor
      · intro hd
        exact absurd hd (by simp)
      · intro hsplit
        have : (storeKeys store).find? (cidMatch store cid) = some p :=
          (find?_eq_some_split (cidMatch store cid) (storeKeys store) p).mpr hsplit
        rw [hf] at this
        exact absurd this (by simp)

/-- C6 witness: the spec scenario, a store keyed by
`/var/www/ci-lustre/upstream-patch-review/200_home.html` with
`change_id` 200 resolves the fragment id 200 to that key. -/
theorem c6_witness :
    showReviewByChangeId c6store "200"
      = View.detail "/var/www/ci-lustre/upstream-patch-review/200_home.html" :=
  (c6_indirect_first_match c6store "200"
      "/var/www/ci-lustre/upstream-patch-review/200_home.html").mpr
    ⟨[], [], by decide, by decide, by intro q hq; simp at hq⟩

/-- C8: the detail filter marks a row hidden exactly when the selection
is neither All nor the stored row status; the home filter leaves a row
visible exactly when both axes match or are All; the stored statuses are
never altered. -/
theorem c8_filter_marks (fv ef ov : String) (rows : List DetailRow)
    (hrows : List HomeRow) :
    ((updateFilter fv rows).map DetailRow.status = rows.map DetailRow.status)
    ∧ (∀ r ∈ rows,
        ((applyRowFilter fv r).filtered = true ↔ (fv ≠ "All" ∧ r.status ≠ fv))
        ∧ (applyRowFilter fv r).status = r.status)
    ∧ ((updateHomeFilter ef ov hrows).map HomeRow.enforcedStatus
        = hrows.map HomeRow.enforcedStatus)
    ∧ ((updateHomeFilter ef ov hrows).map HomeRow.optionalStatus
        = hrows.map HomeRow.optionalStatus)
    ∧ (∀ r ∈ hrows,
        ((applyHomeRowFilter ef ov r).filtered = false ↔
          ((ef = "All" ∨ r.enforcedStatus = ef) ∧ (ov = "All" ∨ r.optionalStatus = ov)))
        ∧ (applyHomeRowFilter ef ov r).enforcedStatus = r.enforcedStatus
        ∧ (applyHomeRowFilter ef ov r).optionalStatus = r.optionalStatus) := by
  have hrow : ∀ r : DetailRow, (applyRowFilter fv r).status = r.status := by
    intro r
    unfold applyRowFilter
    by_cases h : (fv == "All" || r.status == fv) <;> simp [h]
  have hhrow : ∀ r : HomeRow, (applyHomeRowFilter ef ov r).enforcedStatus
      = r.enforcedStatus ∧ (applyHomeRowFilter ef ov r).optionalStatus
      = r.optionalStatus := by
    intro r
    unfold applyHomeRowFilter
    by_cases h : ((ef == "All" || r.enforcedStatus == ef)
        && (ov == "All" || r.optionalStatus == ov)) <;> simp [h]
  refine ⟨?_, ?_, ?_, ?_, ?_⟩
  · unfold updateFilter
    rw [List.map_map]
    exact List.map_congr_left (fun r _ => hrow r)
  · intro r _
    refine ⟨?_, hrow r⟩
    unfold applyRowFilter
    by_cases h : (fv == "All" || r.status == fv)
    · simp only [if_pos h]
      simp at h
      constructor
      · intro hc
        exact absurd hc (by simp)
      · rintro ⟨hne1, hne2⟩
        rcases h with h | h
        · exact absurd h hne1
        · exact absurd h hne2
    · simp only [if_neg h]
      simp at h
      simp [h]
  · unfold updateHomeFilter
    rw [List.map_map]
    exact List.map_congr_left (fun r _ => (hhrow r).1)
  · unfold updateHomeFilter
    rw [List.map_map]
    exact List.map_congr_left (fun r _ => (hhrow r).2)
  · intro r _
    refine ⟨?_, (hhrow r).1, (hhrow r).2⟩
    unfold applyHomeRowFilter
    by_cases h : ((ef == "All" || r.enforcedStatus == ef)
        && (ov == "All" || r.optionalStatus == ov))
    · simp only [if_pos h]
      simp at h
      simp [h]
    · simp only [if_neg h]
      simp at h
      constructor
      · intro hc
        exact absurd hc (by simp)
      · rintro ⟨h1, h2⟩
        rcases h1 with h1 | h1 <;> rcases h2 with h2 | h2 <;>
          exact absurd (h (by simp [h1])) (by simp [h2])


/-- C8 witness: the spec scenario, selecting FAIL hides the PASS row and
keeps the FAIL row visible, statuses unchanged. -/
theorem c8_witness :
    (applyRowFilter "FAIL" { status := "PASS", filtered := false }).filtered = true
    ∧ (applyRowFilter "FAIL" { status := "PASS", filtered := false }).status
        = "PASS" :=
  ⟨((c8_filter_marks "FAIL" "All" "All"
        [{ status := "PASS", filtered := false }] []).2.1
      { status := "PASS", filtered := false } (by simp)).1.mpr
    ⟨by decide, by decide⟩,
   ((c8_filter_marks "FAIL" "All" "All"
        [{ status := "PASS", filtered := false }] []).2.1
      { status := "PASS", filtered := false } (by simp)).2⟩

theorem strAppend_assoc (a b c : String) : (a ++ b) ++ c = a ++ (b ++ c) := by
  show String.mk ((a.data ++ b.data) ++ c.data) = String.mk (a.data ++ (b.data ++ c.data))
  rw [List.append_assoc]

theorem webPathOf_strip (rest : String) :
    webPathOf (installPrefixStr ++ rest) = rest := by
  have h1 : jsStartsWith (installPrefixStr ++ rest) installPrefixStr = true := by
    unfold jsStartsWith
    rw [strData_append]
    exact isPrefixOf_self_append _ _
  unfold webPathOf
  rw [if_pos (by rw [h1])]
  unfold jsDrop
  rw [strData_append, List.drop_left]

theorem dropHomeSuffix_strip (mid : String) :
    dropHomeSuffix (mid ++ homeMarker) = mid := by
  have h1 : jsEndsWith (mid ++ homeMarker) homeMarker = true := by
    unfold jsEndsWith
    rw [strData_append]
    unfold List.isSuffixOf
    rw [List.reverse_append]
    exact isPrefixOf_self_append _ _
  unfold dropHomeSuffix
  rw [if_pos (by rw [h1])]
  unfold jsDropRight
  rw [strData_append, List.length_append, Nat.add_sub_cancel, List.take_left]

/-- C9: the log path is the key-derived prefix, an underscore, the test
name with spaces replaced by underscores and lower-cased, then `.log`;
the prefix is the key itself in direct mode, and in indirect mode the
key with the installation prefix stripped and `_home.html` removed
(each only when present). -/
theorem c9_log_path (mid name hash key : String) :
    (logPathIndirect (installPrefixStr ++ mid ++ homeMarker) name
        = mid ++ "_" ++ normalizeName name ++ ".log")
    ∧ logPathDirect hash name = hash ++ "_" ++ normalizeName name ++ ".log"
    ∧ (normalizeName name).data
        = name.data.map (fun c => Char.toLower (if c == ' ' then '_' else c))
    ∧ (jsStartsWith key installPrefixStr = false → webPathOf key = key)
    ∧ (jsEndsWith key homeMarker = false → dropHomeSuffix key = key) := by
  refine ⟨?_, rfl, ?_, ?_, ?_⟩
  · unfold logPathIndirect
    rw [strAppend_assoc installPrefixStr mid homeMarker, webPathOf_strip,
      dropHomeSuffix_strip]
  · show (name.data.map (fun c => if c == ' ' then '_' else c)).map Char.toLower
        = name.data.map (fun c => Char.toLower (if c == ' ' then '_' else c))
    rw [List.map_map]
    rfl
  · intro h
    unfold webPathOf
    rw [if_neg (by rw [h]; exact Bool.false_ne_true)]
  · intro h
    unfold dropHomeSuffix
    rw [if_neg (by rw [h]; exact Bool.false_ne_true)]

/-- C9 witness: the spec scenario key resolves to the `200_my_test.log`
shape, and a key without the installation prefix is left unchanged. -/
theorem c9_witness :
    logPathIndirect (installPrefixStr ++ "200" ++ homeMarker) "My Test"
        = "200" ++ "_" ++ normalizeName "My Test" ++ ".log"
    ∧ webPathOf "plainkey" = "plainkey" :=
  ⟨(c9_log_path "200" "My Test" "h" "plainkey").1,
   (c9_log_path "200" "My Test" "h" "plainkey").2.2.2.1 (by decide)⟩

theorem exists_pair_of_lookup :
    ∀ (l : Record) (k : String) (v : Value), List.lookup k l = some v → (k, v) ∈ l := by
  intro l
  induction l with
  | nil =>
      intro k v h
      simp [List.lookup] at h
  | cons kv t ih =>
      intro k v h
      obtain ⟨k1, v1⟩ := kv
      by_cases he : k == k1
      · have hk1 : k = k1 := beq_iff_eq.mp he
        have : some v1 = some v := by
          rw [List.lookup] at h
          rw [he] at h
          exact h
        have hv1 : v1 = v := by injection this
        rw [← hk1, ← hv1]
        simp
      · have : List.lookup k t = some v := by
          rw [List.lookup] at h
          rw [Bool.eq_false_iff.mpr he] at h
          exact h
        exact List.mem_cons_of_mem _ (ih k v this)

theorem strictEqTrue_iff (w : Option Value) :
    strictEqTrue w = true ↔
      (w = some (Value.str "True") ∨ w = some (Value.boolv true)) := by
  cases w with
  | none => simp [strictEqTrue]
  | some v =>
      cases v with
      | str s => simp [strictEqTrue]
      | num n => simp [strictEqTrue]
      | boolv b => simp [strictEqTrue]

/-- C3: every `result<Name>` field yields an extracted Outcome whose
return code is the value parsed as an integer with -1 on parse failure,
whose enforced flag is true exactly for the string `"True"` or the
boolean `true` companion value; `"abort"` fails to parse and -1 is
displayed as FAIL. -/
theorem c3_extract_return_code (mkLog : String → String) (data : Record)
    (k : String) (v : Value)
    (hk : jsStartsWith k "result" = true)
    (hv : List.lookup k data = some v) :
    (∃ o ∈ extractDetail mkLog data,
        o.name = jsDrop k 6
        ∧ o.rc = (jsParseIntV v).getD (-1)
        ∧ (o.enforced = true ↔
            (List.lookup ("enforced" ++ jsDrop k 6) data = some (Value.str "True")
             ∨ List.lookup ("enforced" ++ jsDrop k 6) data
                 = some (Value.boolv true))))
    ∧ jsParseIntV (Value.str "abort") = none
    ∧ statusText (-1) = "FAIL" := by
  refine ⟨?_, by decide, by decide⟩
  have hmem : (k, v) ∈ data := exists_pair_of_lookup data k v hv
  refine ⟨{ name := jsDrop k 6
            rc := rcOf (List.lookup k data)
            enforced := strictEqTrue (List.lookup ("enforced" ++ jsDrop k 6) data)
            runtime := jsOrDefaultStr (List.lookup ("runtime" ++ jsDrop k 6) data) "N/A"
            description := jsOrDefaultStr
              (List.lookup ("description" ++ jsDrop k 6) data) ("Job: " ++ jsDrop k 6)
            logPath := mkLog (jsDrop k 6) }, ?_, rfl, ?_, ?_⟩
  · exact List.mem_filterMap.mpr ⟨(k, v), hmem, by simp [hk]⟩
  · show rcOf (List.lookup k data) = (jsParseIntV v).getD (-1)
    rw [hv]
    cases h : jsParseIntV v <;> simp [rcOf, jsParseIntOpt, h]
  · exact strictEqTrue_iff _

/-- C3 witness: the boundary record with `resultBuild = "abort"` and
`enforcedBuild = "True"`. -/
theorem c3_witness :
    (∃ o ∈ extractDetail (logPathDirect "h") c3rec,
        o.name = jsDrop "resultBuild" 6
        ∧ o.rc = (jsParseIntV (Value.str "abort")).getD (-1)
        ∧ (o.enforced = true ↔
            (List.lookup ("enforced" ++ jsDrop "resultBuild" 6) c3rec
                = some (Value.str "True")
             ∨ List.lookup ("enforced" ++ jsDrop "resultBuild" 6) c3rec
                = some (Value.boolv true))))
    ∧ jsParseIntV (Value.str "abort") = none
    ∧ statusText (-1) = "FAIL" :=
  c3_extract_return_code (logPathDirect "h") c3rec "resultBuild"
    (Value.str "abort") (by decide) (by decide)

theorem truthy_lookup_ok {data : Record} {f : String}
    (h : truthyV (List.lookup f data) = true) :
    ∃ v, List.lookup f data = some v ∧ truthyV (some v) = true
      ∧ ∀ s, v = Value.str s → s ≠ "" := by
  cases hl : List.lookup f data with
  | none =>
      rw [hl] at h
      exact absurd h (by simp [truthyV])
  | some v =>
      rw [hl] at h
      refine ⟨v, rfl, h, ?_⟩
      intro s hs he
      rw [hs, he] at h
      simp [truthyV] at h

/-- C4: every row the home listing emits, in either variant, comes from
a Record in which all four required fields are present, truthy, and (for
string values) non-empty; Records missing any of them are excluded. -/
theorem c4_required_fields (store : Store) :
    (∀ it ∈ sortedHomeFiles store,
        ∀ f ∈ (["patch_revision", "change_id", "subject", "time_stamp"] : List String),
          ∃ v, List.lookup f it.data = some v ∧ truthyV (some v) = true
            ∧ ∀ s, v = Value.str s → s ≠ "")
    ∧ (∀ it ∈ sortedTestRuns store,
        ∀ f ∈ (["patch_revision", "change_id", "subject", "time_stamp"] : List String),
          ∃ v, List.lookup f it.data = some v ∧ truthyV (some v) = true
            ∧ ∀ s, v = Value.str s → s ≠ "") := by
  have main : ∀ (l : List HomeItem),
      ∀ it ∈ l.filter (fun it => requiredFieldsOk it.data),
      ∀ f ∈ (["patch_revision", "change_id", "subject", "time_stamp"] : List String),
        ∃ v, List.lookup f it.data = some v ∧ truthyV (some v) = true
          ∧ ∀ s, v = Value.str s → s ≠ "" := by
    intro l it hit f hf
    have hok : requiredFieldsOk it.data = true := (List.mem_filter.mp hit).2
    unfold requiredFieldsOk at hok
    rw [Bool.and_eq_true, Bool.and_eq_true, Bool.and_eq_true] at hok
    obtain ⟨⟨⟨h1, h2⟩, h3⟩, h4⟩ := hok
    fin_cases hf
    · exact truthy_lookup_ok h1
    · exact truthy_lookup_ok h2
    · exact truthy_lookup_ok h3
    · exact truthy_lookup_ok h4
  constructor
  · intro it hit
    exact main _ it (mem_sortJS.mp hit)
  · intro it hit
    exact main _ it (mem_sortJS.mp hit)

/-- C4 witness: the `subject` field of an emitted row is present and
non-empty. -/
theorem c4_witness :
    ∃ v, List.lookup "subject" c5recB = some v ∧ truthyV (some v) = true
      ∧ ∀ s, v = Value.str s → s ≠ "" :=
  (c4_required_fields c5goodStore).1 { path := "b_home.html", data := c5recB }
    (by decide) "subject" (by decide)

theorem dec10_val_sub (a b : Dec10) : (Dec10.sub a b).val = a.val - b.val := by
  have h10 : (10 : ℚ) ≠ 0 := by norm_num
  unfold Dec10.sub Dec10.val
  have h1 : ((a.e - min a.e b.e).toNat : ℤ) = a.e - min a.e b.e :=
    Int.toNat_of_nonneg (by omega)
  have h2 : ((b.e - min a.e b.e).toNat : ℤ) = b.e - min a.e b.e :=
    Int.toNat_of_nonneg (by omega)
  push_cast
  rw [sub_mul, mul_assoc, mul_assoc,
    ← zpow_natCast (10 : ℚ) (a.e - min a.e b.e).toNat,
    ← zpow_natCast (10 : ℚ) (b.e - min a.e b.e).toNat, h1, h2,
    ← zpow_add₀ h10, ← zpow_add₀ h10, sub_add_cancel, sub_add_cancel]

theorem dec10_le0 (d : Dec10) : d.m ≤ 0 ↔ d.val ≤ 0 := by
  unfold Dec10.val
  have hp : (0 : ℚ) < (10 : ℚ) ^ d.e := zpow_pos (by norm_num) _
  constructor
  · intro h
    exact mul_nonpos_of_nonpos_of_nonneg (by exact_mod_cast h) hp.le
  · intro h
    by_contra hc
    push_neg at hc
    have : (0 : ℚ) < (d.m : ℚ) * (10 : ℚ) ^ d.e :=
      mul_pos (by exact_mod_cast hc) hp
    linarith

theorem isFin_iff (n : JSNum) : isFin n = true ↔ ∃ d, n = JSNum.fin d := by
  cases n <;> simp [isFin]

theorem keyVal_of_fin {it : HomeItem} {d : Dec10} (h : finKey it = JSNum.fin d) :
    keyVal it = d.val := by
  unfold keyVal
  rw [h]

theorem jsLe0_homeCmp_iff {x y : HomeItem} {dx dy : Dec10}
    (hx : finKey x = JSNum.fin dx) (hy : finKey y = JSNum.fin dy) :
    jsLe0 (homeCmp x y) = true ↔ keyVal y ≤ keyVal x := by
  have hc : homeCmp x y = JSNum.fin (Dec10.sub dy dx) := by
    unfold finKey at hx hy
    unfold homeCmp
    rw [hx, hy]
    rfl
  rw [hc]
  unfold jsLe0
  rw [decide_eq_true_iff, dec10_le0, dec10_val_sub,
    keyVal_of_fin hx, keyVal_of_fin hy, sub_nonpos]

theorem pairwise_insertJS_key :
    ∀ (l : List HomeItem) (x : HomeItem),
      (∀ y ∈ l, isFin (finKey y) = true) → isFin (finKey x) = true →
      l.Pairwise (fun a b => keyVal b ≤ keyVal a) →
      (insertJS homeCmp x l).Pairwise (fun a b => keyVal b ≤ keyVal a) := by
  intro l
  induction l with
  | nil =>
      intro x _ _ _
      simp [insertJS]
  | cons y ys ih =>
      intro x hall hx hpw
      obtain ⟨dx, hdx⟩ := (isFin_iff _).mp hx
      obtain ⟨dy, hdy⟩ := (isFin_iff _).mp (hall y (by simp))
      by_cases hc : jsLe0 (homeCmp x y) = true
      · have hstep : insertJS homeCmp x (y :: ys) = x :: y :: ys := by
          simp [insertJS, hc]
        rw [hstep]
        have hxy : keyVal y ≤ keyVal x := (jsLe0_homeCmp_iff hdx hdy).mp hc
        refine List.pairwise_cons.mpr ⟨?_, hpw⟩
        intro z hz
        rcases List.mem_cons.mp hz with rfl | hz2
        · exact hxy
        · exact le_trans ((List.pairwise_cons.mp hpw).1 z hz2) hxy
      · have hstep : insertJS homeCmp x (y :: ys) = y :: insertJS homeCmp x ys := by
          simp [insertJS, hc]
        rw [hstep]
        have hyx : keyVal x < keyVal y :=
          not_le.mp (fun hle => hc ((jsLe0_homeCmp_iff hdx hdy).mpr hle))
        refine List.pairwise_cons.mpr ⟨?_, ?_⟩
        · intro z hz
          rcases mem_insertJS.mp hz with rfl | hz2
          · exact le_of_lt hyx
          · exact (List.pairwise_cons.mp hpw).1 z hz2
        · exact ih x (fun y2 hy2 => hall y2 (by simp [hy2])) hx
            (List.pairwise_cons.mp hpw).2

theorem pairwise_sortJS_key :
    ∀ (l : List HomeItem), (∀ y ∈ l, isFin (finKey y) = true) →
      (sortJS homeCmp l).Pairwise (fun a b => keyVal b ≤ keyVal a) := by
  intro l
  induction l with
  | nil =>
      intro _
      simp [sortJS]
  | cons x xs ih =>
      intro hall
      refine pairwise_insertJS_key (sortJS homeCmp xs) x ?_ (hall x (by simp)) ?_
      · intro y hy
        exact hall y (by simp [mem_sortJS.mp hy])
      · exact ih (fun y hy => hall y (by simp [hy]))

/-- C5 counterexample: in a store whose first record has the unparseable
timestamp `"garbage"`, the rendered row order is that record first (the
NaN comparator result is coerced to zero, so the stable sort leaves it
in place), not last; the claimed sort-last degradation does not happen. -/
theorem c5_counterexample :
    (sortedHomeFiles c5store).map HomeItem.path
        = ["a_home.html", "c_home.html", "b_home.html"]
    ∧ jsParseFloatV (tsOr0 c5recA) = JSNum.nan
    ∧ (sortedHomeFiles c5store).getLast?
        ≠ some { path := "a_home.html", data := c5recA } :=
  ⟨by decide, by decide, by decide⟩

/-- C5 amended: when the `time_stamp` of every listed record parses to a
finite number, the emitted rows are in non-increasing order of the
parsed value, and the sorted listing is a permutation of the eligible
records (rendering never drops or aborts); an unparseable `time_stamp`
is compared as equal (NaN coerced to 0), keeping its stable position
rather than moving to a sort-last sentinel position. -/
theorem c5_amended_sort_order (store : Store)
    (h1 : ∀ it ∈ homeFiles store, isFin (finKey it) = true)
    (h2 : ∀ it ∈ testRuns store, isFin (finKey it) = true) :
    ((sortedHomeFiles store).Pairwise (fun a b => keyVal b ≤ keyVal a)
      ∧ List.Perm (sortedHomeFiles store) (homeFiles store))
    ∧ ((sortedTestRuns store).Pairwise (fun a b => keyVal b ≤ keyVal a)
      ∧ List.Perm (sortedTestRuns store) (testRuns store)) :=
  ⟨⟨pairwise_sortJS_key _ h1, perm_sortJS _ _⟩,
   ⟨pairwise_sortJS_key _ h2, perm_sortJS _ _⟩⟩

/-- C5 witness: a store with parseable timestamps renders in
non-increasing timestamp order. -/
theorem c5_witness :
    (sortedHomeFiles c5goodStore).Pairwise (fun a b => keyVal b ≤ keyVal a) :=
  ((c5_amended_sort_order c5goodStore (by decide) (by decide)).1).1

theorem escChar_count_angle (c d : Char) (hd : d = '<' ∨ d = '>') :
    (escChar c).data.count d = 0 := by
  unfold escChar
  by_cases h1 : c == '&'
  · rw [if_pos h1]
    rcases hd with rfl | rfl <;> decide
  · rw [if_neg h1]
    by_cases h2 : c == '<'
    · rw [if_pos h2]
      rcases hd with rfl | rfl <;> decide
    · rw [if_neg h2]
      by_cases h3 : c == '>'
      · rw [if_pos h3]
        rcases hd with rfl | rfl <;> decide
      · rw [if_neg h3]
        by_cases h4 : c.val == 160
        · rw [if_pos h4]
          rcases hd with rfl | rfl <;> decide
        · rw [if_neg h4]
          have hne : (d == c) = false := by
            refine beq_eq_false_iff_ne.mpr ?_
            rcases hd with rfl | rfl
            · intro hdc
              exact h2 (beq_iff_eq.mpr hdc.symm)
            · intro hdc
              exact h3 (beq_iff_eq.mpr hdc.symm)
          have hne2 : (c == d) = false :=
            beq_eq_false_iff_ne.mpr (fun h => (beq_eq_false_iff_ne.mp hne) h.symm)
          show ([c] : List Char).count d = 0
          rw [List.count_cons, List.count_nil, hne2]
          rfl

theorem escList_count_angle (d : Char) (hd : d = '<' ∨ d = '>') :
    ∀ l : List Char, (escList l).data.count d = 0 := by
  intro l
  induction l with
  | nil =>
      rcases hd with rfl | rfl <;> decide
  | cons c cs ih =>
      show ((escChar c ++ escList cs)).data.count d = 0
      rw [strData_append, List.count_append, ih, escChar_count_angle c d hd]

theorem escapeHtml_count_lt (s : String) : (escapeHtml s).data.count '<' = 0 :=
  escList_count_angle '<' (Or.inl rfl) s.data

theorem escapeHtml_count_gt (s : String) : (escapeHtml s).data.count '>' = 0 :=
  escList_count_angle '>' (Or.inr rfl) s.data

set_option maxRecDepth 16384 in
/-- C2 counterexample: `showHome` in src/app.js interpolates
`patch_revision` raw into an `href` attribute, so a value carrying a
quote and markup reaches the emitted output without entity encoding;
and `escapeHtml` itself never encodes quotes. -/
theorem c2_counterexample :
    containsSub (homeRowHtml { path := "k_home.html", data := c2rec })
        "/+/x\x22<img src=a>" = true
    ∧ escapeHtml "\x22" = "\x22" := by
  refine ⟨by decide, by decide⟩

set_option maxRecDepth 16384 in
/-- C2 amended: every value passed through `escapeHtml` (subject, test
name, description, runtime, log path, and the change id of the review
link) is emitted with `<`, `>`, `&` entity-encoded — quotes are not
encoded — while in the src/app.js home view the `patch_revision` and
`change_id` interpolated into the two external `href` attributes bypass
escaping entirely; a `subject` containing `<script>` is rendered with
entities escaped, never as markup.  The detail row contains exactly its
14 template `<` characters no matter what the record holds. -/
theorem c2_amended_escaping (s : String) (r : Outcome) :
    (escapeHtml s).data.count '<' = 0
    ∧ (escapeHtml s).data.count '>' = 0
    ∧ (resultRowHtml r).data.count '<' = 14
    ∧ escapeHtml "<script>" = "&lt;script&gt;"
    ∧ containsSub (homeRowHtml c2scriptItem) "<script" = false
    ∧ containsSub (homeRowHtml c2scriptItem)
        "&lt;script&gt;alert(1)&lt;/script&gt;" = true := by
  refine ⟨escapeHtml_count_lt s, escapeHtml_count_gt s, ?_, by decide, by decide,
    by decide⟩
  by_cases hrc : r.rc == 0 <;>
    cases he : r.enforced <;>
      simp only [resultRowHtml, statusColor, statusText, hrc, he, if_true,
        if_false, Bool.false_eq_true, strData_append, List.count_append,
        escapeHtml_count_lt] <;>
      decide

end UPR
